import Mathlib

/-!
Shallow embedding of the py-saga runtime (`src/saga/`), and theorems settling
the specification claims about it.

The embedding follows the source files:
  * `saga/actions.py` — tagged `Action` values;
  * `saga/effects.py` — the payloads of the effect variants;
  * `saga/runtime.py` — the handlers `SagaRuntime._take`, `SagaRuntime.dispatch`,
    `SagaRuntime._handle_effect` (the `Put`, `Select`, `Fork`, `All` cases),
    `SagaRuntime._handle_error`, `SagaRuntime._handle_race`, and the bounded
    action queue configured in `SagaRuntime.__init__`.

Cooperative-scheduling behaviour is made explicit: asynchronous completion is
modelled by completion orders (lists of slot indices) or by settle times, and
Python's `asyncio.TaskGroup` rule that leaving the `async with` block awaits
every task created in it is reflected directly in the definitions that embed
code using a `TaskGroup`.
-/

namespace Saga

/-- An action value (`saga/actions.py`): a concrete dataclass with a `type`
discriminator (defaulting to the upper-cased class name) and a payload.
`mro` lists the names of the action's class and its ancestors, so that
Python's `isinstance(action, cls)` is membership of `cls` in `mro`. -/
structure Action where
  mro : List String
  type : String
  payload : Int
deriving Repr, DecidableEq

/-- A non-`None` `Take` pattern (`saga/effects.py`: `pattern : Union[str, Type[Action]]`):
either a string compared against `action.type`, or an action class checked
with `isinstance`. The whole pattern argument of `_take` is `Option Pattern`,
`none` standing for Python `None`. -/
inductive Pattern where
  | str (s : String)
  | cls (c : String)
deriving Repr, DecidableEq

/-- The match test performed inside the `while` loop of `SagaRuntime._take`:
`pattern is None` matches anything; a string pattern requires
`action.type == pattern`; a class pattern requires `isinstance(action, pattern)`. -/
def patternMatches : Option Pattern → Action → Bool
  | none, _ => true
  | some (Pattern.str s), a => a.type == s
  | some (Pattern.cls c), a => a.mro.contains c

/-- `SagaRuntime._take`: repeatedly dequeue from the action queue; return the
first action matching the pattern together with the remaining queue.
Non-matching dequeued actions are dropped (the loop just continues).
`none` means the queue ran out, i.e. the coroutine suspends awaiting
further actions. -/
def take (p : Option Pattern) : List Action → Option (Action × List Action)
  | [] => none
  | a :: rest =>
    if patternMatches p a then some (a, rest)
    else take p rest

/-- Decomposition of a successful `_take`: the dequeued prefix before the
match consists of non-matching actions and is consumed, the returned queue is
exactly what follows the matched action. -/
theorem take_eq_some_iff_decomp (p : Option Pattern) (q : List Action) (a : Action)
    (q' : List Action) (h : take p q = some (a, q')) :
    patternMatches p a = true ∧
      ∃ pre, q = pre ++ a :: q' ∧ ∀ x ∈ pre, patternMatches p x = false := by
  induction q with
  | nil => simp [take] at h
  | cons b rest ih =>
    by_cases hb : patternMatches p b = true
    · rw [take, if_pos hb] at h
      obtain ⟨rfl, rfl⟩ : b = a ∧ rest = q' := by
        constructor <;> [exact (Prod.mk.injEq .. ▸ Option.some.injEq .. ▸ h).1 ▸ rfl;
          exact (Prod.mk.injEq .. ▸ Option.some.injEq .. ▸ h).2 ▸ rfl]
      exact ⟨hb, [], rfl, by intro x hx; cases hx⟩
    · rw [take, if_neg hb] at h
      obtain ⟨hm, pre, hq, hpre⟩ := ih h
      refine ⟨hm, b :: pre, by rw [hq]; rfl, ?_⟩
      intro x hx
      rcases List.mem_cons.mp hx with rfl | hx
      · exact Bool.eq_false_iff.mpr hb
      · exact hpre x hx

/-- Sample actions used as concrete inputs in witnesses. -/
def incAction : Action := ⟨["Increment", "Action"], "INCREMENT", 1⟩

/-- A second sample action with a different type discriminator and class. -/
def decAction : Action := ⟨["Decrement", "Action"], "DECREMENT", 1⟩

/-- C5: `Take` with pattern `None` resolves with the first dequeued action
regardless of type; a string pattern resolves only with an action whose
`type` equals the pattern; a class pattern resolves only with an instance of
that class; every dequeued non-matching action is consumed and discarded by
this `Take`'s loop (the remaining queue is what follows the match, the
skipped prefix is gone). -/
theorem C5_take_patterns (p : Option Pattern) (q : List Action) :
    (∀ a rest, take none (a :: rest) = some (a, rest)) ∧
    (∀ s a q', take (some (Pattern.str s)) q = some (a, q') → a.type = s) ∧
    (∀ c a q', take (some (Pattern.cls c)) q = some (a, q') → a.mro.contains c = true) ∧
    (∀ a q', take p q = some (a, q') →
      ∃ pre, q = pre ++ a :: q' ∧ ∀ x ∈ pre, patternMatches p x = false) := by
  refine ⟨fun a rest => by simp [take, patternMatches], ?_, ?_, ?_⟩
  · intro s a q' h
    have hm := (take_eq_some_iff_decomp _ _ _ _ h).1
    simpa [patternMatches] using hm
  · intro c a q' h
    have hm := (take_eq_some_iff_decomp _ _ _ _ h).1
    simpa [patternMatches] using hm
  · intro a q' h
    exact (take_eq_some_iff_decomp _ _ _ _ h).2

/-- Witness for C5: a concrete queue `[incAction, decAction]` with the string
pattern `DECREMENT` skips and discards `incAction` and resolves with
`decAction`. -/
theorem C5_take_patterns_witness :
    decAction.type = "DECREMENT" ∧
      ∃ pre, [incAction, decAction] = pre ++ decAction :: [] ∧
        ∀ x ∈ pre, patternMatches (some (Pattern.str "DECREMENT")) x = false := by
  have h : take (some (Pattern.str "DECREMENT")) [incAction, decAction] =
      some (decAction, []) := by decide
  exact ⟨(C5_take_patterns (some (Pattern.str "DECREMENT")) [incAction, decAction]).2.1
      "DECREMENT" decAction [] h,
    (C5_take_patterns (some (Pattern.str "DECREMENT")) [incAction, decAction]).2.2.2
      decAction [] h⟩

/-- The runtime error raised by the `Put` and `Select` cases of
`SagaRuntime._handle_effect` when no store is attached
(`RuntimeError("Cannot use ... effect without a store")`), called
`NoStoreConfigured` by the specification. -/
inductive SagaError where
  | noStoreConfigured
deriving Repr, DecidableEq

/-- Observable side effects of `SagaRuntime.dispatch`. -/
inductive PutEv where
  | storeDispatch (a : Action)
  | enqueue (a : Action)
deriving Repr, DecidableEq

/-- `SagaRuntime.dispatch`: forwards the action to `store.dispatch` when a
store is attached, then enqueues the same action onto the action queue.
The returned list is the ordered trace of those side effects. -/
def dispatch (hasStore : Bool) (a : Action) : List PutEv :=
  (if hasStore then [PutEv.storeDispatch a] else []) ++ [PutEv.enqueue a]

/-- The `Put` case of `SagaRuntime._handle_effect`: without a store it raises;
with a store it awaits `self.dispatch(action)` and resolves with the action. -/
def handle_put (hasStore : Bool) (a : Action) :
    Except SagaError (Action × List PutEv) :=
  if hasStore then Except.ok (a, dispatch hasStore a)
  else Except.error SagaError.noStoreConfigured

/-- C6: with a store attached, `Put(action)` calls `Store.dispatch(action)`
and then performs exactly one enqueue of the same action, in that order, and
resolves with the action itself; with no store it fails with
`NoStoreConfigured`. -/
theorem C6_put (a : Action) :
    handle_put true a = Except.ok (a, [PutEv.storeDispatch a, PutEv.enqueue a]) ∧
    (dispatch true a).count (PutEv.enqueue a) = 1 ∧
    handle_put false a = Except.error SagaError.noStoreConfigured := by
  refine ⟨rfl, ?_, rfl⟩
  simp [dispatch, List.count_cons]

/-- The result of the `Select` case: `selector(state) if selector else state`
is either the projected value or the raw state. -/
inductive SelectResult (S R : Type) where
  | projected (r : R)
  | raw (s : S)
deriving DecidableEq

/-- The `Select` case of `SagaRuntime._handle_effect`: without a store it
raises; with a store it reads `store.get_state()` (the state held by the
attached store) and applies the selector when one is present. -/
def handle_select {S R : Type} (store : Option S) (sel : Option (S → R)) :
    Except SagaError (SelectResult S R) :=
  match store with
  | none => Except.error SagaError.noStoreConfigured
  | some s =>
    match sel with
    | some f => Except.ok (SelectResult.projected (f s))
    | none => Except.ok (SelectResult.raw s)

/-- C7: `Select` on a runtime with no store fails with `NoStoreConfigured`;
with a store it resolves with the projection applied to the state when a
projection is present, and with the raw state otherwise. -/
theorem C7_select (S R : Type) (s : S) (f : S → R) :
    handle_select (S := S) (R := R) none (some f) =
        Except.error SagaError.noStoreConfigured ∧
    handle_select (S := S) (R := R) none none =
        Except.error SagaError.noStoreConfigured ∧
    handle_select (some s) (some f) = Except.ok (SelectResult.projected (f s)) ∧
    handle_select (R := R) (some s) none = Except.ok (SelectResult.raw s) :=
  ⟨rfl, rfl, rfl, rfl⟩

/-- The result slots of the `All` case of `SagaRuntime._handle_effect`:
`results = [None] * len(effects)`. -/
def initSlots (V : Type) (n : Nat) : List (Option V) := List.replicate n none

/-- The `All` case of `SagaRuntime._handle_effect`: one `wrapper` task per
input effect writes that effect's resolved value into its own slot
(`results[idx] = await self._handle_effect(_effect)`); the `TaskGroup` exit
waits for every task. `r i` is the value the i-th sub-effect resolves to
(all sub-effects succeed), and `order` is the order in which the scheduler
lets the wrapper tasks complete, i.e. the order of the slot writes. -/
def handle_all {V : Type} (r : Nat → V) (n : Nat) (order : List Nat) :
    List (Option V) :=
  order.foldl (fun slots i => slots.set i (some (r i))) (initSlots V n)

/-- Folding slot writes never changes the number of slots. -/
theorem foldl_set_length {V : Type} (order : List Nat) (f : Nat → Option V)
    (init : List (Option V)) :
    (order.foldl (fun slots i => slots.set i (f i)) init).length = init.length := by
  induction order generalizing init with
  | nil => rfl
  | cons j rest ih => simpa [List.foldl] using ih (init.set j (f j))

/-- After folding the slot writes, slot `i` holds `f i` exactly when some
write targeted it; otherwise it is untouched. -/
theorem foldl_set_getElem {V : Type} (order : List Nat) (f : Nat → Option V)
    (init : List (Option V)) (i : Nat) (hi : i < init.length) :
    (order.foldl (fun slots j => slots.set j (f j)) init)[i]? =
      if i ∈ order then some (f i) else init[i]? := by
  induction order generalizing init with
  | nil => simp
  | cons j rest ih =>
    have hlen : i < (init.set j (f j)).length := by simpa using hi
    by_cases hir : i ∈ rest
    · simp only [List.foldl, ih (init.set j (f j)) hlen, if_pos hir,
        if_pos (List.mem_cons.mpr (Or.inr hir))]
    · by_cases hij : i = j
      · subst hij
        simp only [List.foldl, ih (init.set i (f i)) hlen, if_neg hir,
          if_pos (List.mem_cons.mpr (Or.inl rfl))]
        exact List.getElem?_set_eq_of_lt (f i) hi
      · have : i ∉ j :: rest := by
          intro hmem
          rcases List.mem_cons.mp hmem with h | h
          · exact hij h
          · exact hir h
        simp only [List.foldl, ih (init.set j (f j)) hlen, if_neg hir, if_neg this]
        exact List.getElem?_set_ne (fun h => hij h.symm)

/-- C4: when every sub-effect of `All` succeeds, the resolved list has length
N and its i-th element is the i-th sub-effect's result, for every completion
order of the wrapper tasks (any permutation of the slot indices). -/
theorem C4_all_preserves_order {V : Type} (r : Nat → V) (n : Nat)
    (order : List Nat) (h : order.Perm (List.range n)) :
    (handle_all r n order).length = n ∧
      ∀ i, i < n → (handle_all r n order)[i]? = some (some (r i)) := by
  constructor
  · simpa [initSlots] using
      foldl_set_length order (fun i => some (r i)) (initSlots V n)
  · intro i hi
    have hmem : i ∈ order := h.mem_iff.mpr (List.mem_range.mpr hi)
    have hlen : i < (initSlots V n).length := by simpa [initSlots] using hi
    rw [handle_all, foldl_set_getElem order (fun i => some (r i)) _ i hlen,
      if_pos hmem]

/-- Witness for C4: two sub-effects completing in reversed order `[1, 0]`
still fill the slots by input index. -/
theorem C4_all_preserves_order_witness :
    (handle_all (fun i => i) 2 [1, 0]).length = 2 ∧
      ∀ i, i < 2 → (handle_all (fun i => i) 2 [1, 0])[i]? = some (some i) := by
  have hperm : ([1, 0] : List Nat).Perm (List.range 2) := by
    have : List.range 2 = [0, 1] := rfl
    rw [this]
    exact List.Perm.swap 0 1 []
  exact C4_all_preserves_order (fun i => i) 2 [1, 0] hperm

/-- C10: `All` over an empty sequence of sub-effects spawns no wrapper task —
the slot list is empty and the result is the empty sequence at once, whatever
the scheduler does (there is no slot any write could fill). -/
theorem C10_all_empty (V : Type) (r : Nat → V) :
    handle_all r 0 [] = [] ∧ initSlots V 0 = [] ∧
      ∀ order : List Nat, handle_all r 0 order = [] := by
  refine ⟨rfl, rfl, ?_⟩
  intro order
  show order.foldl (fun slots i => slots.set i (some (r i))) [] = []
  induction order with
  | nil => rfl
  | cons j rest ih => simpa [List.foldl] using ih

/-- How a call of `SagaRuntime._handle_error` terminates: either the loop over
`self.error_handlers` finishes and `raise error` re-raises the original error,
or some handler itself raises, in which case that handler's exception
propagates out of the `for` loop. -/
inductive ErrResult (E H : Type) where
  | escalated (e : E)
  | handlerRaised (h : H)
deriving Repr, DecidableEq

/-- `SagaRuntime._handle_error`: each registered handler is modelled by what
`await handler(error)` does — `Except.ok ()` when it returns normally,
`Except.error h` when it raises `h`. The handlers run in registration order;
a raising handler aborts the loop; after the loop the original error is
re-raised. The second component counts how many handlers were invoked. -/
def handle_error {E H : Type} (handlers : List (Except H Unit)) (e : E) :
    ErrResult E H × Nat :=
  match handlers with
  | [] => (ErrResult.escalated e, 0)
  | Except.ok _ :: rest =>
    let p := handle_error rest e
    (p.1, p.2 + 1)
  | Except.error h :: _ => (ErrResult.handlerRaised h, 1)

/-- C3 counterexample: with a single registered handler that succeeds, the
code still escalates the original error (the claim says a succeeding handler
stops escalation), and with two succeeding handlers both are invoked (the
claim says invocation stops at the first one that does not fail). -/
theorem C3_handlers_counterexample :
    handle_error (H := Unit) [Except.ok ()] (7 : Nat) =
        (ErrResult.escalated 7, 1) ∧
    handle_error (H := Unit) [Except.ok (), Except.ok ()] (7 : Nat) =
        (ErrResult.escalated 7, 2) :=
  ⟨rfl, rfl⟩

/-- C3 amended: handlers run in registration order; when every handler
succeeds, all of them are invoked and the original error is escalated anyway;
invocation stops early only at the first handler that itself fails, whose own
exception then propagates in place of the original error, skipping the
remaining handlers. -/
theorem C3_handlers_in_order (E H : Type) (handlers : List (Except H Unit))
    (e : E) :
    ((∀ x ∈ handlers, x = Except.ok ()) →
      handle_error handlers e = (ErrResult.escalated e, handlers.length)) ∧
    (∀ pre h post, handlers = pre ++ Except.error h :: post →
      (∀ x ∈ pre, x = Except.ok ()) →
      handle_error handlers e = (ErrResult.handlerRaised h, pre.length + 1)) := by
  constructor
  · intro hok
    induction handlers with
    | nil => rfl
    | cons x rest ih =>
      have hx : x = Except.ok () := hok x (List.mem_cons_self x rest)
      subst hx
      have := ih (fun y hy => hok y (List.mem_cons_of_mem _ hy))
      simp [handle_error, this]
  · intro pre h post hsplit hpre
    subst hsplit
    induction pre with
    | nil => rfl
    | cons x rest ih =>
      have hx : x = Except.ok () := hpre x (List.mem_cons_self x rest)
      subst hx
      have := ih (fun y hy => hpre y (List.mem_cons_of_mem _ hy))
      simp [handle_error, List.append_eq, this]

/-- Witness for C3 amended: handlers `[ok, raise 5, ok]` on error `9` — the
first handler runs, the second raises `5` which propagates, the third never
runs, so exactly two handlers were invoked. -/
theorem C3_handlers_in_order_witness :
    handle_error [Except.ok (), Except.error (5 : Nat), Except.ok ()] (9 : Nat) =
      (ErrResult.handlerRaised 5, 2) := by
  have := (C3_handlers_in_order Nat Nat
      [Except.ok (), Except.error 5, Except.ok ()] 9).2
      [Except.ok ()] 5 [Except.ok ()] rfl (by intro x hx; simpa using hx)
  simpa using this

/-- Observable events around the `Fork` case of `SagaRuntime._handle_effect`:
steps taken by the forked child saga, and the resumption of the parent saga
with the value the effect resolved to. -/
inductive ForkEv where
  | childStep (n : Nat)
  | resumedParent
deriving Repr, DecidableEq

/-- The `Fork` case of `SagaRuntime._handle_effect`:
`async with TaskGroup() as tg: tg.create_task(self._run_saga(saga, (), {}))`
then `return None`. Leaving the `async with` block awaits the created task,
so every observable step of the child saga (given here as `childSteps`)
happens before the handler returns `None`. -/
def handle_fork (childSteps : List Nat) : Option Nat × List ForkEv :=
  (none, childSteps.map ForkEv.childStep)

/-- The trace of handling a `Fork` effect and then resuming the parent with
the handler's result (`effect = await gen.asend(result)` in
`SagaRuntime._run_saga`): the parent resumes only after the handler returned,
hence after the whole child trace. -/
def fork_then_resume (childSteps : List Nat) : List ForkEv :=
  (handle_fork childSteps).2 ++ [ForkEv.resumedParent]

/-- C2 counterexample: for a child saga with one observable step the first
event of the trace is the child's step, and the parent is resumed last — the
`Fork` result is not observable before the child ran; the parent waited for
the child's completion. -/
theorem C2_fork_counterexample :
    fork_then_resume [0] = [ForkEv.childStep 0, ForkEv.resumedParent] ∧
    (fork_then_resume [0]).head? = some (ForkEv.childStep 0) ∧
    fork_then_resume [0] ≠ [ForkEv.resumedParent, ForkEv.childStep 0] := by
  refine ⟨rfl, rfl, ?_⟩
  decide

/-- C2 amended: `Fork` resolves with no value (`None`), but only after the
forked child saga has run to completion: every event the handler produces is
a child step, and the parent's resumption is the final event of the trace,
after all the child's steps. -/
theorem C2_fork_waits_for_child (childSteps : List Nat) :
    (handle_fork childSteps).1 = none ∧
    fork_then_resume childSteps =
      childSteps.map ForkEv.childStep ++ [ForkEv.resumedParent] ∧
    (∀ e ∈ (handle_fork childSteps).2, ∃ n, e = ForkEv.childStep n) ∧
    (fork_then_resume childSteps).getLast? = some ForkEv.resumedParent := by
  refine ⟨rfl, rfl, ?_, ?_⟩
  · intro e he
    rcases List.mem_map.mp he with ⟨n, _, rfl⟩
    exact ⟨n, rfl⟩
  · simp [fork_then_resume]

/-- Witness for C2 amended: the single event of `handle_fork [3]` is a child
step. -/
theorem C2_fork_waits_for_child_witness :
    ∃ n, ForkEv.childStep 3 = ForkEv.childStep n :=
  (C2_fork_waits_for_child [3]).2.2.1 (ForkEv.childStep 3) (by decide)

/-- How one sub-effect settles inside `SagaRuntime._handle_race.run_effect`:
with a resolved value, or with an exception that the bare `except` clause
catches. -/
inductive Outcome (V E : Type) where
  | ok (v : V)
  | exn (e : E)
deriving Repr, DecidableEq

/-- Scheduling of the race's tasks: a task is inserted into the completion
sequence according to its settle time (the second component), earlier times
first. -/
def insertByTime {V E : Type} (x : String × Nat × Outcome V E) :
    List (String × Nat × Outcome V E) → List (String × Nat × Outcome V E)
  | [] => [x]
  | y :: ys => if x.2.1 < y.2.1 then x :: y :: ys else y :: insertByTime x ys

/-- The order in which the race's tasks complete: the input entries (key,
settle time, outcome), arranged by settle time. -/
def completionOrder {V E : Type}
    (effects : List (String × Nat × Outcome V E)) :
    List (String × Nat × Outcome V E) :=
  effects.foldr insertByTime []

/-- `SagaRuntime._handle_race`: every `run_effect` task stores its outcome —
resolved value or caught exception — under its key in `results` and sets the
`done` event; no task ever raises out of `run_effect`, so the `TaskGroup`
cancels nothing, and leaving the `async with` block waits for all tasks.
The returned dict therefore holds one entry per sub-effect, inserted in
completion order. Keys are unique (they come from a Python dict). -/
def handle_race {V E : Type} (effects : List (String × Nat × Outcome V E)) :
    List (String × Outcome V E) :=
  (completionOrder effects).map (fun x => (x.1, x.2.2))

/-- `_handle_race` as seen by the caller `_handle_effect`: it always returns
normally (every exception of a sub-effect was caught inside `run_effect`),
so the surrounding saga loop never routes a race to `_handle_error`. -/
def handle_race_result {V E : Type}
    (effects : List (String × Nat × Outcome V E)) :
    Except E (List (String × Outcome V E)) :=
  Except.ok (handle_race effects)

/-- The `Call` case of `SagaRuntime._handle_effect`: the callable's resolved
value is the effect's result, and its exception propagates (becoming an
`Except.error` that `_run_saga` catches and feeds to `_handle_error`). -/
def handle_call {V E : Type} (o : Outcome V E) : Except E V :=
  match o with
  | Outcome.ok v => Except.ok v
  | Outcome.exn e => Except.error e

/-- Inserting a task into the completion sequence permutes consing it. -/
theorem insertByTime_perm {V E : Type} (x : String × Nat × Outcome V E)
    (l : List (String × Nat × Outcome V E)) :
    (insertByTime x l).Perm (x :: l) := by
  induction l with
  | nil => exact List.Perm.refl _
  | cons y ys ih =>
    rw [insertByTime]
    by_cases hxy : x.2.1 < y.2.1
    · rw [if_pos hxy]
    · rw [if_neg hxy]
      exact (ih.cons y).trans (List.Perm.swap x y ys)

/-- The completion sequence is a permutation of the input entries. -/
theorem completionOrder_perm {V E : Type}
    (effects : List (String × Nat × Outcome V E)) :
    (completionOrder effects).Perm effects := by
  induction effects with
  | nil => exact List.Perm.refl _
  | cons a l ih => exact (insertByTime_perm a (completionOrder l)).trans (ih.cons a)

/-- The race result is a permutation of all input (key, outcome) pairs. -/
theorem handle_race_perm {V E : Type}
    (effects : List (String × Nat × Outcome V E)) :
    (handle_race effects).Perm (effects.map (fun x => (x.1, x.2.2))) :=
  (completionOrder_perm effects).map _

/-- C1 counterexample: a race whose sub-effects settle at times 1 and 2
returns a mapping with two entries, not one — the slower sub-effect is not
cancelled and its result does appear, alongside the first settler's. -/
theorem C1_race_counterexample :
    handle_race [("fast", 1, (Outcome.ok 1 : Outcome Nat Nat)),
        ("slow", 2, (Outcome.ok 2 : Outcome Nat Nat))] =
      [("fast", Outcome.ok 1), ("slow", Outcome.ok 2)] ∧
    (handle_race [("fast", 1, (Outcome.ok 1 : Outcome Nat Nat)),
        ("slow", 2, (Outcome.ok 2 : Outcome Nat Nat))]).length ≠ 1 := by
  refine ⟨rfl, ?_⟩
  decide

/-- C1 amended: for a race whose sub-effects all settle, the `TaskGroup` exit
waits for every sub-effect, none is cancelled, and the returned mapping holds
one entry per sub-effect — each key paired with that sub-effect's settled
outcome (success or failure), in settlement order. -/
theorem C1_race_collects_all (V E : Type)
    (effects : List (String × Nat × Outcome V E)) (k : String) (t : Nat)
    (o : Outcome V E) :
    (handle_race effects).length = effects.length ∧
    ((k, t, o) ∈ effects → (k, o) ∈ handle_race effects) := by
  constructor
  · rw [(handle_race_perm effects).length_eq, List.length_map]
  · intro hmem
    exact (handle_race_perm effects).mem_iff.mpr
      (List.mem_map_of_mem (fun x => (x.1, x.2.2)) hmem)

/-- Witness for C1 amended: in the two-entry race of the counterexample the
slower sub-effect's pair is a member of the returned mapping. -/
theorem C1_race_collects_all_witness :
    ("slow", (Outcome.ok 2 : Outcome Nat Nat)) ∈
      handle_race [("fast", 1, (Outcome.ok 1 : Outcome Nat Nat)),
        ("slow", 2, (Outcome.ok 2 : Outcome Nat Nat))] :=
  (C1_race_collects_all Nat Nat
      [("fast", 1, Outcome.ok 1), ("slow", 2, Outcome.ok 2)] "slow" 2
      (Outcome.ok 2)).2 (by decide)

/-- C8 counterexample: the first-settling sub-effect fails with exception 5,
yet the race resolves normally (`Except.ok`), storing the exception as the
key's value in the result mapping; by contrast a failed `Call` produces
`Except.error 5`, which the saga loop routes to the error handlers. The
winning failure is therefore not routed like a failed `Call`. -/
theorem C8_race_failure_counterexample :
    handle_race_result [("fast", 1, (Outcome.exn 5 : Outcome Nat Nat)),
        ("slow", 2, (Outcome.ok 9 : Outcome Nat Nat))] =
      Except.ok [("fast", Outcome.exn 5), ("slow", Outcome.ok 9)] ∧
    handle_call (Outcome.exn 5 : Outcome Nat Nat) = Except.error 5 :=
  ⟨rfl, rfl⟩

/-- C8 amended: a sub-effect's failure is caught inside `run_effect` and
stored as that key's entry in the result mapping; the race itself always
resolves normally and never surfaces the failure as an exception — unlike a
failed `Call`, whose exception propagates to the error-handling policy. -/
theorem C8_race_failure_stored (V E : Type)
    (effects : List (String × Nat × Outcome V E)) (k : String) (t : Nat)
    (e : E) :
    handle_race_result effects = Except.ok (handle_race effects) ∧
    ((k, t, Outcome.exn e) ∈ effects →
      (k, Outcome.exn e) ∈ handle_race effects) ∧
    (∀ x : E, handle_call (V := V) (Outcome.exn x) = Except.error x) := by
  refine ⟨rfl, ?_, fun x => rfl⟩
  intro hmem
  exact (handle_race_perm effects).mem_iff.mpr
    (List.mem_map_of_mem (fun x => (x.1, x.2.2)) hmem)

/-- Witness for C8 amended: a one-entry race whose sub-effect fails stores
the exception in the mapping. -/
theorem C8_race_failure_stored_witness :
    ("fast", (Outcome.exn 5 : Outcome Nat Nat)) ∈
      handle_race [("fast", 1, (Outcome.exn 5 : Outcome Nat Nat))] :=
  (C8_race_failure_stored Nat Nat [("fast", 1, Outcome.exn 5)] "fast" 1 5).2.1
    (by decide)

/-- The action channel: the FIFO queue `Queue[Action](maxsize=100)` created in
`SagaRuntime.__init__`, with its pending items and its configured capacity. -/
structure ActionQueue where
  items : List Action
  maxsize : Nat
deriving Repr, DecidableEq

/-- The channel as `SagaRuntime.__init__` constructs it: empty, capacity 100. -/
def init_queue : ActionQueue := ⟨[], 100⟩

/-- One attempt of `await queue.put(action)`: the producer either enqueues at
the back or suspends. There is no failing or dropping alternative. -/
inductive PutStep where
  | enqueued (q : ActionQueue)
  | suspended
deriving Repr, DecidableEq

/-- `asyncio.Queue.put` as used by `SagaRuntime.dispatch`: when the queue is
full (`maxsize > 0` and at least `maxsize` items are pending) the producer
suspends until space is available; otherwise the action is appended at the
back of the FIFO. -/
def queue_put (q : ActionQueue) (a : Action) : PutStep :=
  if 0 < q.maxsize ∧ q.maxsize ≤ q.items.length then PutStep.suspended
  else PutStep.enqueued ⟨q.items ++ [a], q.maxsize⟩

/-- `asyncio.Queue.get` as used by `SagaRuntime._take`: dequeue the front
item, or suspend (`none`) when the queue is empty. -/
def queue_get (q : ActionQueue) : Option (Action × ActionQueue) :=
  match q.items with
  | [] => none
  | a :: rest => some (a, ⟨rest, q.maxsize⟩)

/-- One channel operation performed by some producer (`Put`/`dispatch`) or
consumer (`Take`). -/
inductive ChanOp where
  | put (a : Action)
  | get
deriving Repr, DecidableEq

/-- The channel state after one operation: a suspended producer or consumer
leaves the queue unchanged (it is still waiting). -/
def chan_step (q : ActionQueue) : ChanOp → ActionQueue
  | ChanOp.put a =>
    match queue_put q a with
    | PutStep.enqueued q2 => q2
    | PutStep.suspended => q
  | ChanOp.get =>
    match queue_get q with
    | some p => p.2
    | none => q

/-- The channel state after a sequence of operations. -/
def run_ops (ops : List ChanOp) (q : ActionQueue) : ActionQueue :=
  ops.foldl chan_step q

/-- One operation preserves the capacity bound of a 100-capacity channel. -/
theorem chan_step_inv (q : ActionQueue) (op : ChanOp) (h1 : q.maxsize = 100)
    (h2 : q.items.length ≤ 100) :
    (chan_step q op).maxsize = 100 ∧ (chan_step q op).items.length ≤ 100 := by
  cases op with
  | put a =>
    by_cases hfull : 0 < q.maxsize ∧ q.maxsize ≤ q.items.length
    · have hq : queue_put q a = PutStep.suspended := by simp [queue_put, hfull]
      simp [chan_step, hq, h1, h2]
    · have hq : queue_put q a = PutStep.enqueued ⟨q.items ++ [a], q.maxsize⟩ := by
        simp [queue_put, hfull]
      have hlt : q.items.length < 100 := by
        by_contra hge
        exact hfull ⟨by omega, by omega⟩
      refine ⟨by simp only [chan_step, hq]; exact h1, ?_⟩
      simp only [chan_step, hq, List.length_append, List.length_cons,
        List.length_nil]
      omega
  | get =>
    cases hq : q.items with
    | nil =>
      constructor
      · simp only [chan_step, queue_get, hq]
        exact h1
      · simp only [chan_step, queue_get, hq, List.length_nil]
        omega
    | cons a rest =>
      have hlen : rest.length + 1 ≤ 100 := by
        have := h2
        rw [hq] at this
        simpa using this
      simp only [chan_step, queue_get, hq]
      exact ⟨h1, by omega⟩

/-- Every run from a valid 100-capacity channel state stays within bound. -/
theorem run_ops_inv (ops : List ChanOp) (q : ActionQueue) (h1 : q.maxsize = 100)
    (h2 : q.items.length ≤ 100) :
    (run_ops ops q).maxsize = 100 ∧ (run_ops ops q).items.length ≤ 100 := by
  induction ops generalizing q with
  | nil => exact ⟨h1, h2⟩
  | cons op rest ih =>
    have hstep := chan_step_inv q op h1 h2
    simpa [run_ops, List.foldl] using ih (chan_step q op) hstep.1 hstep.2

/-- C9: starting from the channel `SagaRuntime.__init__` creates, no sequence
of producer/consumer operations ever leaves more than 100 actions pending; a
producer putting onto a full channel suspends — the channel is unchanged and
the action is neither dropped nor does the put fail — and a producer putting
onto a non-full channel appends exactly its action at the back. -/
theorem C9_channel_bounded (ops : List ChanOp) (q : ActionQueue) (a : Action) :
    (run_ops ops init_queue).items.length ≤ 100 ∧
    (100 ≤ q.items.length → q.maxsize = 100 →
      queue_put q a = PutStep.suspended) ∧
    (q.items.length < 100 → q.maxsize = 100 →
      queue_put q a = PutStep.enqueued ⟨q.items ++ [a], 100⟩) := by
  refine ⟨(run_ops_inv ops init_queue rfl (by simp [init_queue])).2, ?_, ?_⟩
  · intro hge hmax
    have hfull : 0 < q.maxsize ∧ q.maxsize ≤ q.items.length := ⟨by omega, by omega⟩
    simp [queue_put, hfull]
  · intro hlt hmax
    have hfull : ¬(0 < q.maxsize ∧ q.maxsize ≤ q.items.length) := by
      rintro ⟨h0, hle⟩
      omega
    simp [queue_put, hfull, hmax]
    omega

/-- Witness for C9: a put onto a channel already holding 100 actions
suspends. -/
theorem C9_channel_bounded_witness :
    queue_put ⟨List.replicate 100 incAction, 100⟩ incAction =
      PutStep.suspended :=
  (C9_channel_bounded [] ⟨List.replicate 100 incAction, 100⟩ incAction).2.1
    (by simp) rfl

end Saga
